import Mathlib

set_option maxHeartbeats 1000000

/-!
Shallow embedding of the windows-emulator core
(`src/src/windows_emulator/main.cpp`): PE module mapping, process
construction, the field-name decoder, the export reverse map and the
run/exit plumbing, together with proofs of the specified properties.

Guest addresses and sizes are modelled as `Nat`; 64-bit overflow is made
explicit with `% U64` where the C++ code performs `uint64_t` arithmetic.
The CPU emulator is an external collaborator: its allocation behaviour is
an oracle (`EmuEnv`), and the guest-memory effects `map_module` performs
through it are recorded as a trace of `MemOp` values.
-/

/-- 2^64, the modulus of `uint64_t` arithmetic. -/
def U64 : Nat := 2 ^ 64

/-- Memory permission bits of the emulator (`memory_permission` flags enum):
read / write / exec. -/
structure Perm where
  read : Bool
  write : Bool
  exec : Bool
deriving DecidableEq

/-- `memory_permission::read`, used for the initial image allocation. -/
def perm_read : Perm := { read := true, write := false, exec := false }

/-- `memory_permission::none`. -/
def perm_none : Perm := { read := false, write := false, exec := false }

/-- One observable guest-memory effect performed by `map_module` through the
emulator: a successful allocation, a write of `len` bytes taken from file
offset `fileOff`, or a protection change. -/
inductive MemOp where
  | alloc (addr size : Nat) (perm : Perm)
  | write (addr fileOff len : Nat)
  | protect (addr size : Nat) (perm : Perm)
deriving DecidableEq

/-- The fields of `IMAGE_NT_HEADERS.OptionalHeader` that `map_module` reads. -/
structure OptionalHeader where
  ImageBase : Nat
  SizeOfImage : Nat
  SizeOfHeaders : Nat
  DllCharacteristics : Nat

/-- The fields of an `IMAGE_SECTION_HEADER` that `map_module` reads
(`VirtualSize` is `Misc.VirtualSize` in the C++ headers). -/
structure SectionHeader where
  VirtualAddress : Nat
  VirtualSize : Nat
  SizeOfRawData : Nat
  PointerToRawData : Nat
  Characteristics : Nat
deriving DecidableEq

/-- A parsed view of the PE byte buffer handed to `map_module`: the optional
header, the section table, the export data-directory entry and the three
export-directory arrays together with the name strings they point at.
`export_names.length` plays the role of `NumberOfNames`. -/
structure PEImage where
  optional_header : OptionalHeader
  sections : List SectionHeader
  export_entry_va : Nat
  export_entry_size : Nat
  export_names : List String
  export_ordinals : List Nat
  export_functions : List Nat

/-- The emulator collaborator as an oracle: whether `allocate_memory` at a
given base and size succeeds, and what `find_free_allocation_base` returns
for a given size. -/
structure EmuEnv where
  allocOk : Nat → Nat → Bool
  freeBase : Nat → Nat

/-- `mapped_binary`: chosen image base, `SizeOfImage`, and the export map
(name to guest virtual address), kept as an association list sorted
strictly by name, mirroring `std::map<std::string, uint64_t>`. -/
structure mapped_binary where
  image_base : Nat
  size_of_image : Nat
  exports : List (String × Nat)
deriving DecidableEq

/-- `IMAGE_DLLCHARACTERISTICS_DYNAMIC_BASE` (0x40). -/
def DYNAMIC_BASE : Nat := 0x40

/-- `IMAGE_SCN_MEM_EXECUTE`. -/
def IMAGE_SCN_MEM_EXECUTE : Nat := 0x20000000

/-- `IMAGE_SCN_MEM_READ`. -/
def IMAGE_SCN_MEM_READ : Nat := 0x40000000

/-- `IMAGE_SCN_MEM_WRITE`. -/
def IMAGE_SCN_MEM_WRITE : Nat := 0x80000000

/-- Modelled from the spec: `page_align_up` comes from the repository's
utility headers, which are not under `src/`; the spec requires every
protected length to be rounded up to the 0x1000-byte page. -/
def page_align_up (x : Nat) : Nat := ((x + 0xFFF) / 0x1000) * 0x1000

/-- Association-list lookup (first match wins), as used for `std::map`
lookups and the reverse export map. -/
def alookup {α β : Type} [DecidableEq α] : List (α × β) → α → Option β
  | [], _ => none
  | p :: rest, key => if key = p.1 then some p.2 else alookup rest key

/-- Insert-or-assign into an association list sorted strictly by key in the
lexicographic order on the key's character list (`std::less<std::string>`),
mirroring `std::map::operator[] = value`. -/
def insertExport (m : List (String × Nat)) (k : String) (v : Nat) :
    List (String × Nat) :=
  match m with
  | [] => [(k, v)]
  | p :: rest =>
    if k.data < p.1.data then (k, v) :: p :: rest
    else if k = p.1 then (k, v) :: rest
    else p :: insertExport rest k v

/-- The `(name, address)` pair the export loop of `map_module` computes for
iteration `i`: the name string at `AddressOfNames[i]` paired with
`image_base + functions[ordinals[i]]` (uint64 arithmetic). -/
def export_entry (img : PEImage) (base i : Nat) : String × Nat :=
  (img.export_names.getD i "",
   (base + img.export_functions.getD (img.export_ordinals.getD i 0) 0) % U64)

/-- All pairs produced by the export loop, in loop order. -/
def export_entries (img : PEImage) (base : Nat) : List (String × Nat) :=
  (List.range img.export_names.length).map (fun i => export_entry img base i)

/-- The export map built by `binary.exports[function_name] = function_address`
over the loop of `map_module`. -/
def build_exports (img : PEImage) (base : Nat) : List (String × Nat) :=
  (export_entries img base).foldl (fun m p => insertExport m p.1 p.2) []

/-- Permissions derived from a section's `Characteristics`: start from
`memory_permission::none` and or-in exec, read, write for the corresponding
`IMAGE_SCN_MEM_*` bits. -/
def section_permissions (c : Nat) : Perm :=
  { read := (c &&& IMAGE_SCN_MEM_READ) != 0,
    write := (c &&& IMAGE_SCN_MEM_WRITE) != 0,
    exec := (c &&& IMAGE_SCN_MEM_EXECUTE) != 0 }

/-- The guest-memory effects of one iteration of the section loop of
`map_module`: when `SizeOfRawData > 0`, copy
`min(SizeOfRawData, VirtualSize)` bytes from file offset `PointerToRawData`
to `image_base + VirtualAddress`; always protect
`page_align_up(max(SizeOfRawData, VirtualSize))` bytes there. -/
def map_section (base : Nat) (s : SectionHeader) : List MemOp :=
  (if 0 < s.SizeOfRawData then
     [MemOp.write ((base + s.VirtualAddress) % U64) s.PointerToRawData
        (min s.SizeOfRawData s.VirtualSize)]
   else []) ++
  [MemOp.protect ((base + s.VirtualAddress) % U64)
     (page_align_up (max s.SizeOfRawData s.VirtualSize))
     (section_permissions s.Characteristics)]

/-- The section loop of `map_module`, in section-table order. -/
def ops_of_sections (base : Nat) : List SectionHeader → List MemOp
  | [] => []
  | s :: rest => map_section base s ++ ops_of_sections base rest

/-- The body of `map_module` after a successful allocation at `base`: write
the headers, map every section, and resolve exports when the export data
directory is present (`VirtualAddress != 0` and `Size != 0`). -/
def map_at (img : PEImage) (base : Nat) : List MemOp × mapped_binary :=
  (MemOp.alloc base img.optional_header.SizeOfImage perm_read ::
     MemOp.write base 0 img.optional_header.SizeOfHeaders ::
     ops_of_sections base img.sections,
   { image_base := base,
     size_of_image := img.optional_header.SizeOfImage,
     exports :=
       if img.export_entry_va = 0 ∨ img.export_entry_size = 0 then []
       else build_exports img base })

/-- `map_module`: try the preferred base `OptionalHeader.ImageBase`; on
allocation failure, fail with "Failed to map binary" unless
`DllCharacteristics` has `DYNAMIC_BASE`, in which case retry at
`find_free_allocation_base(SizeOfImage)`; a failing retry is fatal.
The C++ assigns the retry base to `binary.image_base` before testing
`DYNAMIC_BASE`; since `find_free_allocation_base` is a pure query in this
model and a throw discards the binary, that assignment is folded into the
retry branch. Returns the trace of performed guest-memory effects alongside
the result. -/
def map_module (env : EmuEnv) (img : PEImage) :
    List MemOp × Except String mapped_binary :=
  let base0 := img.optional_header.ImageBase
  let sz := img.optional_header.SizeOfImage
  if env.allocOk base0 sz then
    let r := map_at img base0
    (r.1, Except.ok r.2)
  else if img.optional_header.DllCharacteristics &&& DYNAMIC_BASE = 0 then
    ([], Except.error "Failed to map binary")
  else
    let base1 := env.freeBase sz
    if env.allocOk base1 sz then
      let r := map_at img base1
      (r.1, Except.ok r.2)
    else ([], Except.error "Failed to map binary")

/-! ## Association-list lemmas -/

theorem alookup_insertExport (m : List (String × Nat)) (k : String) (v : Nat)
    (k' : String) :
    alookup (insertExport m k v) k' = if k' = k then some v else alookup m k' := by
  induction m with
  | nil => simp [insertExport, alookup]
  | cons p rest ih =>
    by_cases h1 : k.data < p.1.data
    · simp [insertExport, h1, alookup]
    · by_cases h2 : k = p.1
      · by_cases h3 : k' = k
        · simp [insertExport, h1, h2, alookup, h3]
        · have h4 : ¬ k' = p.1 := fun e => h3 (e.trans h2.symm)
          simp [insertExport, h1, h2, alookup, h3, h4]
      · by_cases h3 : k' = p.1
        · have h5 : ¬ p.1 = k := fun e => h2 e.symm
          simp [insertExport, h1, h2, alookup, h3, h5]
        · simp [insertExport, h1, h2, alookup, h3, ih]

theorem mem_insertExport (m : List (String × Nat)) (k : String) (v : Nat)
    (p : String × Nat) (hp : p ∈ insertExport m k v) : p.1 = k ∨ p ∈ m := by
  induction m with
  | nil =>
    simp [insertExport] at hp
    subst hp
    exact Or.inl rfl
  | cons q rest ih =>
    by_cases h1 : k.data < q.1.data
    · simp only [insertExport, if_pos h1, List.mem_cons] at hp
      rcases hp with h | h | h
      · exact Or.inl (by simp [h])
      · exact Or.inr (by simp [h])
      · exact Or.inr (List.mem_cons_of_mem _ h)
    · by_cases h2 : k = q.1
      · simp only [insertExport, if_neg h1, if_pos h2, List.mem_cons] at hp
        rcases hp with h | h
        · exact Or.inl (by simp [h])
        · exact Or.inr (List.mem_cons_of_mem _ h)
      · simp only [insertExport, if_neg h1, if_neg h2, List.mem_cons] at hp
        rcases hp with h | h
        · exact Or.inr (by simp [h])
        · rcases ih h with h' | h'
          · exact Or.inl h'
          · exact Or.inr (List.mem_cons_of_mem _ h')

theorem insertExport_sorted (m : List (String × Nat)) (k : String) (v : Nat)
    (hm : m.Pairwise (fun p q => p.1.data < q.1.data)) :
    (insertExport m k v).Pairwise (fun p q => p.1.data < q.1.data) := by
  induction m with
  | nil => simp [insertExport]
  | cons p rest ih =>
    rw [List.pairwise_cons] at hm
    by_cases h1 : k.data < p.1.data
    · simp only [insertExport, if_pos h1]
      rw [List.pairwise_cons]
      constructor
      · intro b hb
        rcases List.mem_cons.mp hb with h | h
        · simpa [h] using h1
        · exact lt_trans h1 (hm.1 b h)
      · rw [List.pairwise_cons]
        exact hm
    · by_cases h2 : k = p.1
      · simp only [insertExport, if_neg h1, if_pos h2]
        rw [List.pairwise_cons]
        refine ⟨fun b hb => ?_, hm.2⟩
        rw [h2]
        exact hm.1 b hb
      · have hlt : p.1.data < k.data :=
          lt_of_le_of_ne (le_of_not_lt h1) (fun e => h2 (String.ext e).symm)
        simp only [insertExport, if_neg h1, if_neg h2]
        rw [List.pairwise_cons]
        constructor
        · intro b hb
          rcases mem_insertExport rest k v b hb with h | h
          · simpa [h] using hlt
          · exact hm.1 b h
        · exact ih hm.2

theorem alookup_foldl_insert_sorted (ps : List (String × Nat))
    (m : List (String × Nat)) (hm : m.Pairwise (fun p q => p.1.data < q.1.data)) :
    (ps.foldl (fun acc p => insertExport acc p.1 p.2) m).Pairwise
      (fun p q => p.1.data < q.1.data) := by
  induction ps generalizing m with
  | nil => simpa using hm
  | cons p rest ih =>
    simpa using ih (insertExport m p.1 p.2) (insertExport_sorted m p.1 p.2 hm)

theorem alookup_foldl_insert_of_not_mem (ps : List (String × Nat))
    (m : List (String × Nat)) (k : String) (h : ∀ p ∈ ps, p.1 ≠ k) :
    alookup (ps.foldl (fun acc p => insertExport acc p.1 p.2) m) k = alookup m k := by
  induction ps generalizing m with
  | nil => rfl
  | cons p rest ih =>
    have hk : p.1 ≠ k := h p (List.mem_cons_self _ _)
    have hk2 : ¬ k = p.1 := fun e => hk e.symm
    have hrest := ih (insertExport m p.1 p.2) (fun q hq => h q (List.mem_cons_of_mem _ hq))
    rw [List.foldl_cons, hrest, alookup_insertExport, if_neg hk2]

theorem alookup_foldl_insert_of_mem (ps : List (String × Nat))
    (m : List (String × Nat)) (k : String) (v : Nat)
    (hdist : ps.Pairwise (fun p q => p.1 ≠ q.1)) (hmem : (k, v) ∈ ps) :
    alookup (ps.foldl (fun acc p => insertExport acc p.1 p.2) m) k = some v := by
  induction ps generalizing m with
  | nil => cases hmem
  | cons p rest ih =>
    rw [List.pairwise_cons] at hdist
    rcases List.mem_cons.mp hmem with h | h
    · have hnot : ∀ q ∈ rest, q.1 ≠ k := by
        intro q hq e
        have hfst : (k, v).1 = k := rfl
        have := hdist.1 q hq
        rw [← h] at this
        exact this e.symm
      rw [List.foldl_cons, alookup_foldl_insert_of_not_mem rest _ k hnot,
        alookup_insertExport]
      rw [← h]
      simp
    · rw [List.foldl_cons]
      exact ih (insertExport m p.1 p.2) hdist.2 h

theorem alookup_foldl_insert_source (ps : List (String × Nat))
    (m : List (String × Nat)) (k : String) (v : Nat)
    (h : alookup (ps.foldl (fun acc p => insertExport acc p.1 p.2) m) k = some v) :
    (k, v) ∈ ps ∨ alookup m k = some v := by
  induction ps generalizing m with
  | nil => exact Or.inr h
  | cons p rest ih =>
    rw [List.foldl_cons] at h
    rcases ih (insertExport m p.1 p.2) h with h' | h'
    · exact Or.inl (List.mem_cons_of_mem _ h')
    · rw [alookup_insertExport] at h'
      by_cases hk : k = p.1
      · rw [if_pos hk] at h'
        have hv : p.2 = v := Option.some.inj h'
        refine Or.inl ?_
        rw [List.mem_cons]
        left
        cases p
        simp_all
      · rw [if_neg hk] at h'
        exact Or.inr h'

/-! ## map_module inversion -/

theorem map_module_ok (env : EmuEnv) (img : PEImage) (ops : List MemOp)
    (bin : mapped_binary) (h : map_module env img = (ops, Except.ok bin)) :
    ∃ b, ops = (map_at img b).1 ∧ bin = (map_at img b).2 := by
  unfold map_module at h
  by_cases h1 : env.allocOk img.optional_header.ImageBase
      img.optional_header.SizeOfImage
  · refine ⟨img.optional_header.ImageBase, ?_⟩
    simp only [h1, if_true, if_pos] at h
    injection h with ha hb
    injection hb with hb
    exact ⟨ha.symm, hb.symm⟩
  · by_cases h2 : img.optional_header.DllCharacteristics &&& DYNAMIC_BASE = 0
    · simp [h1, h2] at h
    · by_cases h3 : env.allocOk (env.freeBase img.optional_header.SizeOfImage)
          img.optional_header.SizeOfImage
      · refine ⟨env.freeBase img.optional_header.SizeOfImage, ?_⟩
        simp only [h1, h2, h3, if_true, if_false, Bool.false_eq_true] at h
        injection h with ha hb
        injection hb with hb
        exact ⟨ha.symm, hb.symm⟩
      · simp [h1, h2, h3] at h

/-- Claim C1: if allocation at the preferred base fails, `map_module` fails
fatally with "Failed to map binary" when `DllCharacteristics` lacks
`DYNAMIC_BASE`; otherwise it retries at `find_free_allocation_base` of the
requested size, records that base as `image_base`, and fails fatally only
if the retry also fails. -/
theorem c1_relocation_fallback (env : EmuEnv) (img : PEImage)
    (hfail : env.allocOk img.optional_header.ImageBase
        img.optional_header.SizeOfImage = false) :
    (img.optional_header.DllCharacteristics &&& DYNAMIC_BASE = 0 →
       map_module env img = ([], Except.error "Failed to map binary")) ∧
    (img.optional_header.DllCharacteristics &&& DYNAMIC_BASE ≠ 0 →
       (env.allocOk (env.freeBase img.optional_header.SizeOfImage)
           img.optional_header.SizeOfImage = true →
          ∃ ops bin, map_module env img = (ops, Except.ok bin) ∧
            bin.image_base = env.freeBase img.optional_header.SizeOfImage ∧
            ops.head? = some (MemOp.alloc
              (env.freeBase img.optional_header.SizeOfImage)
              img.optional_header.SizeOfImage perm_read)) ∧
       (env.allocOk (env.freeBase img.optional_header.SizeOfImage)
           img.optional_header.SizeOfImage = false →
          map_module env img = ([], Except.error "Failed to map binary"))) := by
  constructor
  · intro hdyn
    simp [map_module, hfail, hdyn]
  · intro hdyn
    constructor
    · intro hok
      refine ⟨(map_at img (env.freeBase img.optional_header.SizeOfImage)).1,
              (map_at img (env.freeBase img.optional_header.SizeOfImage)).2,
              ?_, rfl, rfl⟩
      simp [map_module, hfail, hdyn, hok]
    · intro hko
      simp [map_module, hfail, hdyn, hko]

/-- Concrete environment in which every allocation fails. -/
def env_fail : EmuEnv :=
  { allocOk := fun _ _ => false, freeBase := fun _ => 0x200000000 }

/-- A concrete non-relocatable image (DllCharacteristics = 0). -/
def img_norelo : PEImage :=
  { optional_header :=
      { ImageBase := 0x180000000, SizeOfImage := 0x2000,
        SizeOfHeaders := 0x400, DllCharacteristics := 0 },
    sections := [], export_entry_va := 0, export_entry_size := 0,
    export_names := [], export_ordinals := [], export_functions := [] }

theorem c1_witness :
    map_module env_fail img_norelo = ([], Except.error "Failed to map binary") :=
  (c1_relocation_fallback env_fail img_norelo rfl).1 rfl

/-- Claim C10: whenever `map_module` throws "Failed to map binary", its trace
of performed guest-memory effects is empty: no successful allocation, no
write, no protection change. -/
theorem c10_failure_atomic (env : EmuEnv) (img : PEImage) (ops : List MemOp)
    (e : String) (h : map_module env img = (ops, Except.error e)) :
    ops = [] ∧ e = "Failed to map binary" := by
  unfold map_module at h
  by_cases h1 : env.allocOk img.optional_header.ImageBase
      img.optional_header.SizeOfImage
  · simp [h1] at h
  · by_cases h2 : img.optional_header.DllCharacteristics &&& DYNAMIC_BASE = 0
    · simp only [h1, h2, if_true, if_false, Bool.false_eq_true] at h
      injection h with ha hb
      injection hb with hb
      exact ⟨ha.symm, hb.symm⟩
    · by_cases h3 : env.allocOk (env.freeBase img.optional_header.SizeOfImage)
          img.optional_header.SizeOfImage
      · simp [h1, h2, h3] at h
      · simp only [h1, h2, h3, if_true, if_false, Bool.false_eq_true] at h
        injection h with ha hb
        injection hb with hb
        exact ⟨ha.symm, hb.symm⟩

theorem c10_witness :
    ([] : List MemOp) = [] ∧
      "Failed to map binary" = "Failed to map binary" :=
  c10_failure_atomic env_fail img_norelo [] "Failed to map binary" rfl

/-! ## Export-loop lemmas -/

theorem export_entry_mem (img : PEImage) (base i : Nat)
    (hi : i < img.export_names.length) :
    export_entry img base i ∈ export_entries img base :=
  List.mem_map_of_mem _ (List.mem_range.mpr hi)

theorem export_entries_keys_nodup (img : PEImage) (base : Nat)
    (hnodup : img.export_names.Nodup) :
    (export_entries img base).Pairwise (fun p q => p.1 ≠ q.1) := by
  unfold export_entries
  rw [List.pairwise_map, List.pairwise_iff_getElem]
  intro i j hi hj hij
  simp only [List.length_range] at hi hj
  simp only [List.getElem_range]
  unfold export_entry
  simp only
  rw [List.getD_eq_getElem _ _ hi, List.getD_eq_getElem _ _ hj]
  intro e
  have hinj := List.nodup_iff_injective_getElem.mp hnodup
  have hfin : (⟨i, hi⟩ : Fin _) = ⟨j, hj⟩ := hinj e
  have hij2 : i = j := congrArg Fin.val hfin
  omega

theorem build_exports_sorted (img : PEImage) (base : Nat) :
    (build_exports img base).Pairwise (fun p q => p.1.data < q.1.data) :=
  alookup_foldl_insert_sorted (export_entries img base) [] (by simp)

theorem exports_sorted_of_ok (env : EmuEnv) (img : PEImage) (ops : List MemOp)
    (bin : mapped_binary) (h : map_module env img = (ops, Except.ok bin)) :
    bin.exports.Pairwise (fun p q => p.1.data < q.1.data) := by
  obtain ⟨b, _, hbin⟩ := map_module_ok env img ops bin h
  rw [hbin]
  simp only [map_at]
  by_cases hp : img.export_entry_va = 0 ∨ img.export_entry_size = 0
  · simp [hp]
  · simp only [hp, if_false]
    exact build_exports_sorted img b

/-- Claim C2: with a present, non-empty export directory and pairwise
distinct export names, the exports map records, for each `i` below
`NumberOfNames`, the name at `AddressOfNames[i]` bound to
`image_base + functions[ordinals[i]]` (uint64 arithmetic); the map binds
each name to exactly one address (its keys are pairwise distinct), while
nothing prevents two names from sharing an address. -/
theorem c2_export_resolution (env : EmuEnv) (img : PEImage) (ops : List MemOp)
    (bin : mapped_binary) (i : Nat)
    (h : map_module env img = (ops, Except.ok bin))
    (hva : img.export_entry_va ≠ 0) (hsz : img.export_entry_size ≠ 0)
    (hnodup : img.export_names.Nodup)
    (hi : i < img.export_names.length) :
    alookup bin.exports (img.export_names.getD i "") =
      some ((bin.image_base +
        img.export_functions.getD (img.export_ordinals.getD i 0) 0) % U64) ∧
    bin.exports.Pairwise (fun p q => p.1 ≠ q.1) := by
  have hsorted := exports_sorted_of_ok env img ops bin h
  obtain ⟨b, _, hbin⟩ := map_module_ok env img ops bin h
  constructor
  · rw [hbin]
    simp only [map_at, hva, hsz, or_self, if_false]
    have hmem := export_entry_mem img b i hi
    have hkeys := export_entries_keys_nodup img b hnodup
    have hfold := alookup_foldl_insert_of_mem (export_entries img b) []
      (export_entry img b i).1 (export_entry img b i).2 hkeys (by simpa using hmem)
    unfold export_entry at hfold
    simp only at hfold
    exact hfold
  · exact hsorted.imp (fun hlt e => absurd (congrArg String.data e) (ne_of_lt hlt))

/-- Environment in which every allocation succeeds. -/
def env_ok : EmuEnv :=
  { allocOk := fun _ _ => true, freeBase := fun _ => 0x200000000 }

/-- A concrete image exporting "foo" and "bar" at the same RVA 0x500:
two distinct names aliasing one address. -/
def img_alias : PEImage :=
  { optional_header :=
      { ImageBase := 0x180000000, SizeOfImage := 0x2000,
        SizeOfHeaders := 0x400, DllCharacteristics := 0x40 },
    sections := [], export_entry_va := 0x1000, export_entry_size := 0x100,
    export_names := ["foo", "bar"], export_ordinals := [0, 0],
    export_functions := [0x500] }

/-- The mapped binary `map_module` produces for `img_alias` in `env_ok`. -/
def bin_alias : mapped_binary :=
  { image_base := 0x180000000, size_of_image := 0x2000,
    exports := [("bar", 0x180000500), ("foo", 0x180000500)] }

theorem c2_witness :
    alookup bin_alias.exports "foo" = some 0x180000500 ∧
      alookup bin_alias.exports "bar" = some 0x180000500 := by
  have h : map_module env_ok img_alias =
      ([MemOp.alloc 0x180000000 0x2000 perm_read,
        MemOp.write 0x180000000 0 0x400], Except.ok bin_alias) := by rfl
  refine ⟨?_, ?_⟩
  · exact (c2_export_resolution env_ok img_alias _ bin_alias 0 h (by decide)
      (by decide) (by decide) (by decide)).1
  · exact (c2_export_resolution env_ok img_alias _ bin_alias 1 h (by decide)
      (by decide) (by decide) (by decide)).1

/-- A concrete image whose single export has RVA 0x10000, far beyond its
`SizeOfImage` of 0x2000. -/
def img_outofrange : PEImage :=
  { optional_header :=
      { ImageBase := 0x180000000, SizeOfImage := 0x2000,
        SizeOfHeaders := 0x400, DllCharacteristics := 0x40 },
    sections := [], export_entry_va := 0x1000, export_entry_size := 0x100,
    export_names := ["evil"], export_ordinals := [0],
    export_functions := [0x10000] }

/-- The mapped binary `map_module` produces for `img_outofrange`. -/
def bin_outofrange : mapped_binary :=
  { image_base := 0x180000000, size_of_image := 0x2000,
    exports := [("evil", 0x180010000)] }

/-- Claim C3 counterexample: `map_module` records the export "evil" at
address 0x180010000, which lies outside
[image_base, image_base + size_of_image) = [0x180000000, 0x180002000):
the code adds the function RVA to the base without any range check. -/
theorem c3_counterexample :
    (map_module env_ok img_outofrange).2 = Except.ok bin_outofrange ∧
    alookup bin_outofrange.exports "evil" = some 0x180010000 ∧
    ¬ (0x180010000 < bin_outofrange.image_base + bin_outofrange.size_of_image) := by
  refine ⟨rfl, rfl, by decide⟩

/-- Claim C3 (amended): provided every RVA in the export function table is
below `SizeOfImage`, `SizeOfImage` is positive, and the mapped image fits
below 2^64, every address recorded in the exports map lies within
[image_base, image_base + size_of_image). -/
theorem c3_exports_in_range (env : EmuEnv) (img : PEImage) (ops : List MemOp)
    (bin : mapped_binary) (n : String) (a : Nat)
    (h : map_module env img = (ops, Except.ok bin))
    (hrva : ∀ r ∈ img.export_functions, r < img.optional_header.SizeOfImage)
    (hpos : 0 < img.optional_header.SizeOfImage)
    (hfit : bin.image_base + img.optional_header.SizeOfImage ≤ U64)
    (hl : alookup bin.exports n = some a) :
    bin.image_base ≤ a ∧ a < bin.image_base + bin.size_of_image := by
  obtain ⟨b, _, hbin⟩ := map_module_ok env img ops bin h
  have hbase : bin.image_base = b := by rw [hbin]; rfl
  have hsize : bin.size_of_image = img.optional_header.SizeOfImage := by rw [hbin]; rfl
  rw [hbin] at hl
  simp only [map_at] at hl
  by_cases hp : img.export_entry_va = 0 ∨ img.export_entry_size = 0
  · rw [if_pos hp] at hl
    simp [alookup] at hl
  · rw [if_neg hp] at hl
    rcases alookup_foldl_insert_source (export_entries img b) [] n a hl with
      hmem | hnone
    · unfold export_entries at hmem
      rw [List.mem_map] at hmem
      obtain ⟨i, hi, he⟩ := hmem
      have ha : a =
          (b + img.export_functions.getD (img.export_ordinals.getD i 0) 0) % U64 := by
        have hsnd := congrArg Prod.snd he
        simpa [export_entry] using hsnd.symm
      have hrlt : img.export_functions.getD (img.export_ordinals.getD i 0) 0 <
          img.optional_header.SizeOfImage := by
        by_cases hj : img.export_ordinals.getD i 0 < img.export_functions.length
        · rw [List.getD_eq_getElem _ _ hj]
          exact hrva _ (List.getElem_mem hj)
        · rw [List.getD_eq_default _ _ (le_of_not_lt hj)]
          exact hpos
      have hfit2 : b + img.optional_header.SizeOfImage ≤ U64 := by
        rw [← hbase]
        exact hfit
      have hlt64 : b + img.export_functions.getD (img.export_ordinals.getD i 0) 0 <
          U64 := by omega
      have hmod : a = b + img.export_functions.getD (img.export_ordinals.getD i 0) 0 := by
        rw [ha, Nat.mod_eq_of_lt hlt64]
      constructor
      · rw [hbase, hmod]
        omega
      · rw [hbase, hmod, hsize]
        omega
    · simp [alookup] at hnone

/-- A concrete well-formed image: one export "sym" at RVA 0x500 inside a
0x2000-byte image. -/
def img_inrange : PEImage :=
  { optional_header :=
      { ImageBase := 0x180000000, SizeOfImage := 0x2000,
        SizeOfHeaders := 0x400, DllCharacteristics := 0x40 },
    sections := [], export_entry_va := 0x1000, export_entry_size := 0x100,
    export_names := ["sym"], export_ordinals := [0],
    export_functions := [0x500] }

/-- The mapped binary `map_module` produces for `img_inrange`. -/
def bin_inrange : mapped_binary :=
  { image_base := 0x180000000, size_of_image := 0x2000,
    exports := [("sym", 0x180000500)] }

theorem c3_witness :
    bin_inrange.image_base ≤ 0x180000500 ∧
      0x180000500 < bin_inrange.image_base + bin_inrange.size_of_image := by
  have h : map_module env_ok img_inrange =
      ([MemOp.alloc 0x180000000 0x2000 perm_read,
        MemOp.write 0x180000000 0 0x400], Except.ok bin_inrange) := rfl
  exact c3_exports_in_range env_ok img_inrange _ bin_inrange "sym" 0x180000500 h
    (by decide) (by decide) (by decide) rfl

/-! ## Section-loop lemmas -/

theorem isInfix_of_isInfix_right {α : Type} (x : List α) {l m : List α}
    (h : List.IsInfix m l) : List.IsInfix m (x ++ l) := by
  obtain ⟨u, t, rfl⟩ := h
  exact ⟨x ++ u, t, by simp⟩

theorem map_section_infix_ops (base : Nat) (l : List SectionHeader)
    (s : SectionHeader) (hs : s ∈ l) :
    List.IsInfix (map_section base s) (ops_of_sections base l) := by
  induction l with
  | nil => cases hs
  | cons x rest ih =>
    rcases List.mem_cons.mp hs with h | h
    · subst h
      exact ⟨[], ops_of_sections base rest, by simp [ops_of_sections]⟩
    · exact isInfix_of_isInfix_right (map_section base x) (ih h)

/-- Claim C5: for every section of a successfully mapped image, the trace of
`map_module` contains, contiguously for that section: a copy of
`min(SizeOfRawData, VirtualSize)` bytes from file offset `PointerToRawData`
to `image_base + VirtualAddress` when `SizeOfRawData > 0` (nothing copied
when it is 0), followed by a protection of
`page_align_up(max(SizeOfRawData, VirtualSize))` bytes at that address with
exactly the permissions derived from the EXECUTE / READ / WRITE
characteristic bits; no characteristic bits yield no access. -/
theorem c5_section_mapping (env : EmuEnv) (img : PEImage) (ops : List MemOp)
    (bin : mapped_binary) (s : SectionHeader)
    (h : map_module env img = (ops, Except.ok bin))
    (hs : s ∈ img.sections) :
    List.IsInfix
      ((if 0 < s.SizeOfRawData then
          [MemOp.write ((bin.image_base + s.VirtualAddress) % U64)
             s.PointerToRawData (min s.SizeOfRawData s.VirtualSize)]
        else []) ++
       [MemOp.protect ((bin.image_base + s.VirtualAddress) % U64)
          (page_align_up (max s.SizeOfRawData s.VirtualSize))
          { read := (s.Characteristics &&& IMAGE_SCN_MEM_READ) != 0,
            write := (s.Characteristics &&& IMAGE_SCN_MEM_WRITE) != 0,
            exec := (s.Characteristics &&& IMAGE_SCN_MEM_EXECUTE) != 0 }])
      ops ∧
    (s.Characteristics = 0 →
      section_permissions s.Characteristics = perm_none) := by
  obtain ⟨b, hops, hbin⟩ := map_module_ok env img ops bin h
  have hbase : bin.image_base = b := by rw [hbin]; rfl
  constructor
  · rw [hops, hbase]
    have hinf := map_section_infix_ops b img.sections s hs
    have hfull : List.IsInfix (map_section b s) ((map_at img b).1) := by
      obtain ⟨u, t, he⟩ := hinf
      exact ⟨MemOp.alloc b img.optional_header.SizeOfImage perm_read ::
               MemOp.write b 0 img.optional_header.SizeOfHeaders :: u, t, by
                 simp only [map_at, List.cons_append, List.append_assoc]
                 rw [← he]
                 simp⟩
    simpa [map_section, section_permissions] using hfull
  · intro h0
    simp [section_permissions, h0, perm_none, IMAGE_SCN_MEM_READ,
      IMAGE_SCN_MEM_WRITE, IMAGE_SCN_MEM_EXECUTE]

/-- A concrete `.text`-like section: EXEC|READ, raw data 0x100 bytes at file
offset 0x400, virtual address 0x1000. -/
def sect_demo : SectionHeader :=
  { VirtualAddress := 0x1000, VirtualSize := 0x100, SizeOfRawData := 0x100,
    PointerToRawData := 0x400, Characteristics := 0x60000020 }

/-- A concrete image with the single section `sect_demo` and no exports. -/
def img_sect : PEImage :=
  { optional_header :=
      { ImageBase := 0x180000000, SizeOfImage := 0x2000,
        SizeOfHeaders := 0x400, DllCharacteristics := 0x40 },
    sections := [sect_demo], export_entry_va := 0, export_entry_size := 0,
    export_names := [], export_ordinals := [], export_functions := [] }

/-- The mapped binary `map_module` produces for `img_sect`. -/
def bin_sect : mapped_binary :=
  { image_base := 0x180000000, size_of_image := 0x2000, exports := [] }

theorem c5_witness :
    List.IsInfix
      [MemOp.write 0x180001000 0x400 0x100,
       MemOp.protect 0x180001000 0x1000
         { read := true, write := false, exec := true }]
      [MemOp.alloc 0x180000000 0x2000 perm_read,
       MemOp.write 0x180000000 0 0x400,
       MemOp.write 0x180001000 0x400 0x100,
       MemOp.protect 0x180001000 0x1000
         { read := true, write := false, exec := true }] ∧
    (sect_demo.Characteristics = 0 →
      section_permissions sect_demo.Characteristics = perm_none) := by
  have h : map_module env_ok img_sect =
      ([MemOp.alloc 0x180000000 0x2000 perm_read,
        MemOp.write 0x180000000 0 0x400,
        MemOp.write 0x180001000 0x400 0x100,
        MemOp.protect 0x180001000 0x1000
          { read := true, write := false, exec := true }],
       Except.ok bin_sect) := rfl
  exact c5_section_mapping env_ok img_sect _ bin_sect sect_demo h (by decide)

/-! ## Process construction (setup_context and the PEB update of run) -/

/-- `STACK_SIZE` (0x40000). -/
def STACK_SIZE : Nat := 0x40000

/-- `STACK_ADDRESS` (0x800000000000 - STACK_SIZE). -/
def STACK_ADDRESS : Nat := 0x800000000000 - STACK_SIZE

/-- `GS_SEGMENT_ADDR` (0x6000000). -/
def GS_SEGMENT_ADDR : Nat := 0x6000000

/-- `GS_SEGMENT_SIZE` (20 MiB). -/
def GS_SEGMENT_SIZE : Nat := 20 * 1024 * 1024

/-- Modelled from the spec: round `x` up to a multiple of the alignment `a`
(the watermark rounding of `emulator_allocator::reserve`). -/
def align_up (x a : Nat) : Nat := if a = 0 then x else ((x + a - 1) / a) * a

/-- Modelled from the spec: `emulator_allocator` (emulator_utils.hpp) is not
under `src/`; the spec describes it as a (base, size, watermark) triple over
the GS segment whose `reserve<T>()` rounds the watermark up to the alignment
of `T` and advances it by `sizeof(T)`, returning the reserved guest address.
The fatal exhaustion check is outside the claims proved here. -/
structure BumpRegion where
  base : Nat
  size : Nat
  watermark : Nat

/-- Modelled from the spec: `reserve<T>()` on a bump region returns the
aligned watermark as the reserved guest address and advances it by the
size. -/
def reserve (r : BumpRegion) (sz al : Nat) : Nat × BumpRegion :=
  let addr := align_up r.watermark al
  (addr, { r with watermark := addr + sz })

/-- Host-side sizes, alignments and the `offsetof(TEB, NtTib)` of the Windows
structures reserved in the GS segment; they come from the Windows headers,
outside this repository, so they are parameters of the model. -/
structure StructLayouts where
  teb_size : Nat
  teb_align : Nat
  peb_size : Nat
  peb_align : Nat
  params_size : Nat
  params_align : Nat
  off_NtTib : Nat
  context_size : Nat
  context_align : Nat

/-- The guest addresses and stored pointer fields produced by
`setup_context`: the reserved TEB / PEB / process-parameter addresses and
the pointer-valued fields the code assigns into them. -/
structure ProcessLayout where
  gs : BumpRegion
  teb_addr : Nat
  peb_addr : Nat
  params_addr : Nat
  teb_StackLimit : Nat
  teb_StackBase : Nat
  teb_Self : Nat
  teb_ProcessEnvironmentBlock : Nat
  peb_ImageBaseAddress : Nat
  peb_ProcessParameters : Nat

/-- `setup_context`: reserve TEB, PEB and RTL_USER_PROCESS_PARAMETERS in GS
order, then initialize the TEB fields (`StackLimit`, `StackBase`,
`Self = &TEB.NtTib`, `ProcessEnvironmentBlock = &PEB`) and the PEB fields
(`ImageBaseAddress = nullptr`, `ProcessParameters = &params`). -/
def setup_context (L : StructLayouts) : ProcessLayout :=
  let gs0 : BumpRegion :=
    { base := GS_SEGMENT_ADDR, size := GS_SEGMENT_SIZE,
      watermark := GS_SEGMENT_ADDR }
  let rteb := reserve gs0 L.teb_size L.teb_align
  let rpeb := reserve rteb.2 L.peb_size L.peb_align
  let rpar := reserve rpeb.2 L.params_size L.params_align
  { gs := rpar.2
    teb_addr := rteb.1
    peb_addr := rpeb.1
    params_addr := rpar.1
    teb_StackLimit := STACK_ADDRESS
    teb_StackBase := STACK_ADDRESS + STACK_SIZE
    teb_Self := rteb.1 + L.off_NtTib
    teb_ProcessEnvironmentBlock := rpeb.1
    peb_ImageBaseAddress := 0
    peb_ProcessParameters := rpar.1 }

/-- The `peb.access` of `run` after mapping the executable:
`peb.ImageBaseAddress = context.executable.image_base`. -/
def set_executable_base (l : ProcessLayout) (b : Nat) : ProcessLayout :=
  { l with peb_ImageBaseAddress := b }

/-- Claim C4: after process construction the pointer-linkage invariants hold
as guest addresses: `TEB.NtTib.Self` is the guest address of `TEB.NtTib`,
`TEB.ProcessEnvironmentBlock` is the guest address of the PEB,
`PEB.ProcessParameters` is the guest address of the process parameters, and
after the executable is mapped `PEB.ImageBaseAddress` is its `image_base`. -/
theorem c4_pointer_linkage (L : StructLayouts) (exeBase : Nat) :
    (set_executable_base (setup_context L) exeBase).teb_Self =
        (set_executable_base (setup_context L) exeBase).teb_addr + L.off_NtTib ∧
    (set_executable_base (setup_context L) exeBase).teb_ProcessEnvironmentBlock =
        (set_executable_base (setup_context L) exeBase).peb_addr ∧
    (set_executable_base (setup_context L) exeBase).peb_ProcessParameters =
        (set_executable_base (setup_context L) exeBase).params_addr ∧
    (set_executable_base (setup_context L) exeBase).peb_ImageBaseAddress =
        exeBase := by
  refine ⟨rfl, rfl, rfl, rfl⟩

/-! ## Field-name decoder (type_info::get_member_name) -/

/-- The loop of `type_info::get_member_name` over the ordered
(offset, name) member table, carrying the previous entry
(`last_offset`, `last_member`, initially 0 and the empty string). -/
def member_lookup (offset lastOffset : Nat) (lastMember : String) :
    List (Nat × String) → String
  | [] => "<N/A>"
  | m :: rest =>
    if offset = m.1 then m.2
    else if offset < m.1 then lastMember ++ "+" ++ toString (offset - lastOffset)
    else member_lookup offset m.1 m.2 rest

/-- `type_info::get_member_name`: decode a byte offset into the name of the
enclosing member of the struct described by the ordered member table. -/
def get_member_name (members : List (Nat × String)) (offset : Nat) : String :=
  member_lookup offset 0 "" members

theorem member_lookup_exact (o : Nat) (n : String) (lo : Nat) (lm : String)
    (ms : List (Nat × String))
    (hs : ms.Pairwise (fun a b => a.1 < b.1)) (hm : (o, n) ∈ ms) :
    member_lookup o lo lm ms = n := by
  induction ms generalizing lo lm with
  | nil => cases hm
  | cons m rest ih =>
    rw [List.pairwise_cons] at hs
    rcases List.mem_cons.mp hm with h | h
    · have h1 : o = m.1 := by rw [← h]
      have h2 : n = m.2 := by rw [← h]
      simp [member_lookup, h1, h2]
    · have hlt : m.1 < o := hs.1 (o, n) h
      have h1 : ¬ o = m.1 := by omega
      have h2 : ¬ o < m.1 := by omega
      simp only [member_lookup, if_neg h1, if_neg h2]
      exact ih m.1 m.2 hs.2 h

theorem member_lookup_between (o o1 o2 : Nat) (n1 n2 : String) (lo : Nat)
    (lm : String) (l1 l2 : List (Nat × String))
    (hs : (l1 ++ (o1, n1) :: (o2, n2) :: l2).Pairwise (fun a b => a.1 < b.1))
    (h1 : o1 < o) (h2 : o < o2) :
    member_lookup o lo lm (l1 ++ (o1, n1) :: (o2, n2) :: l2) =
      n1 ++ "+" ++ toString (o - o1) := by
  induction l1 generalizing lo lm with
  | nil =>
    have e1 : ¬ o = o1 := by omega
    have e2 : ¬ o < o1 := by omega
    have e3 : ¬ o = o2 := by omega
    simp only [List.nil_append, member_lookup, if_neg e1, if_neg e2,
      if_pos h2, if_neg e3]
  | cons p l1' ih =>
    rw [List.cons_append, List.pairwise_cons] at hs
    have hp1 : p.1 < o1 :=
      hs.1 (o1, n1) (List.mem_append_right _ (List.mem_cons_self _ _))
    have e1 : ¬ o = p.1 := by omega
    have e2 : ¬ o < p.1 := by omega
    simp only [List.cons_append, member_lookup, if_neg e1, if_neg e2]
    exact ih p.1 p.2 hs.2

theorem member_lookup_beyond (o lo : Nat) (lm : String)
    (ms : List (Nat × String)) (hall : ∀ p ∈ ms, p.1 < o) :
    member_lookup o lo lm ms = "<N/A>" := by
  induction ms generalizing lo lm with
  | nil => rfl
  | cons m rest ih =>
    have hlt : m.1 < o := hall m (List.mem_cons_self _ _)
    have e1 : ¬ o = m.1 := by omega
    have e2 : ¬ o < m.1 := by omega
    simp only [member_lookup, if_neg e1, if_neg e2]
    exact ih m.1 m.2 (fun p hp => hall p (List.mem_cons_of_mem _ hp))

/-- Claim C6: over the strictly offset-ordered member table of a struct, the
decoder returns the member name on an exact offset hit; for an offset
strictly between two consecutive member offsets it returns the earlier name
followed by "+" and the distance; beyond the last member and for an empty
table it returns "N/A"; and an offset before the first member (which
for a reflected C++ struct sits at offset 0, hence the hypothesis) cannot
occur, so that case also yields "N/A" vacuously. -/
theorem c6_field_name_decoding (members l1 l2 : List (Nat × String))
    (o o1 o2 : Nat) (n1 n2 : String)
    (hs : members.Pairwise (fun a b => a.1 < b.1)) :
    (∀ n, (o, n) ∈ members → get_member_name members o = n) ∧
    (members = l1 ++ (o1, n1) :: (o2, n2) :: l2 → o1 < o → o < o2 →
       get_member_name members o = n1 ++ "+" ++ toString (o - o1)) ∧
    ((∀ p ∈ members, p.1 < o) → get_member_name members o = "<N/A>") ∧
    (get_member_name [] o = "<N/A>") ∧
    (∀ p0, members.head? = some p0 → p0.1 = 0 → o < p0.1 →
       get_member_name members o = "<N/A>") := by
  refine ⟨?_, ?_, ?_, rfl, ?_⟩
  · intro n hm
    exact member_lookup_exact o n 0 "" members hs hm
  · intro he h1 h2
    subst he
    exact member_lookup_between o o1 o2 n1 n2 0 "" l1 l2 hs h1 h2
  · intro hall
    exact member_lookup_beyond o 0 "" members hall
  · intro p0 _ hz ho
    rw [hz] at ho
    cases ho

theorem c6_witness :
    get_member_name [(0, "NtTib"), (56, "EnvironmentPointer")] 8 =
      "NtTib" ++ "+" ++ toString (8 - 0) := by
  exact (c6_field_name_decoding [(0, "NtTib"), (56, "EnvironmentPointer")]
    [] [] 8 0 56 "NtTib" "EnvironmentPointer" (by decide)).2.1 rfl
    (by decide) (by decide)

/-! ## Run tail: entry arguments and start address -/

/-- The tail of `run` that prepares execution (modelled over the already
mapped `ntdll` and the GS bump region after `setup_context`): resolve
`LdrInitializeThunk` and `RtlUserThreadStart` via `exports.at` (which throws
when absent), reserve a `CONTEXT` in GS, set `rcx` to its guest address and
`rdx` to the ntdll image base, and start at `LdrInitializeThunk`. Returns
`(rcx, rdx, start address)`. -/
def run_entry (ntdll : mapped_binary) (gs : BumpRegion) (L : StructLayouts) :
    Except String (Nat × Nat × Nat) :=
  match alookup ntdll.exports "LdrInitializeThunk" with
  | none => Except.error "map::at"
  | some e1 =>
    match alookup ntdll.exports "RtlUserThreadStart" with
    | none => Except.error "map::at"
    | some _ =>
      let r := reserve gs L.context_size L.context_align
      Except.ok (r.1, ntdll.image_base, e1)

/-- Claim C7: before the emulator starts, `rcx` holds the guest address of a
`CONTEXT` freshly reserved from the GS bump allocator (the aligned current
watermark), `rdx` holds the ntdll image base, and execution starts at the
resolved `LdrInitializeThunk` export. -/
theorem c7_entry_setup (ntdll : mapped_binary) (gs : BumpRegion)
    (L : StructLayouts) (e1 e2 : Nat)
    (h1 : alookup ntdll.exports "LdrInitializeThunk" = some e1)
    (h2 : alookup ntdll.exports "RtlUserThreadStart" = some e2) :
    run_entry ntdll gs L =
      Except.ok (align_up gs.watermark L.context_align, ntdll.image_base, e1) := by
  unfold run_entry
  rw [h1, h2]
  rfl

/-- A concrete mapped ntdll with the two required exports. -/
def ntdll_demo : mapped_binary :=
  { image_base := 0x7ff800000000, size_of_image := 0x200000,
    exports := [("LdrInitializeThunk", 0x7ff800012340),
                ("RtlUserThreadStart", 0x7ff800045670)] }

/-- Concrete layout parameters for the witness. -/
def layouts_demo : StructLayouts :=
  { teb_size := 0x1838, teb_align := 16, peb_size := 0x7c8, peb_align := 16,
    params_size := 0x448, params_align := 16, off_NtTib := 0,
    context_size := 0x4d0, context_align := 16 }

theorem c7_witness :
    run_entry ntdll_demo
        { base := GS_SEGMENT_ADDR, size := GS_SEGMENT_SIZE,
          watermark := 0x6002a48 } layouts_demo =
      Except.ok (align_up 0x6002a48 layouts_demo.context_align,
        ntdll_demo.image_base, 0x7ff800012340) := by
  exact c7_entry_setup ntdll_demo
    { base := GS_SEGMENT_ADDR, size := GS_SEGMENT_SIZE, watermark := 0x6002a48 }
    layouts_demo 0x7ff800012340 0x7ff800045670 rfl rfl

/-! ## Failure surface: run's catch and main's exit code -/

/-- One line of observable output of the harness. -/
inductive OutEvent where
  | printFault (rip : Nat)
  | printMsg (s : String)
  | printDone
deriving DecidableEq

/-- The behaviour of the emulator's `start` call: `none` means it returned
normally (guest halt); `some (msg, rip)` means it raised an exception with
message `msg` while the instruction-pointer register held `rip`. -/
structure StartBehavior where
  result : Option (String × Nat)

/-- The `try/catch` around `emu->start(...)` in `run`: on an exception, print
the faulting instruction pointer read from `rip` and re-raise; on normal
return, print "Emulation done.". -/
def run_finish (b : StartBehavior) : List OutEvent × Except String Unit :=
  match b.result with
  | none => ([OutEvent.printDone], Except.ok ())
  | some (msg, rip) => ([OutEvent.printFault rip], Except.error msg)

/-- `main`: call `run`; on normal completion return 0; on an exception print
its message (to standard output via `puts`) and return 1. -/
def main_harness (b : StartBehavior) : List OutEvent × Nat :=
  match run_finish b with
  | (out, Except.ok _) => (out, 0)
  | (out, Except.error msg) => (out ++ [OutEvent.printMsg msg], 1)

/-- Claim C8: if `start` raises, the core prints the faulting instruction
pointer read from the instruction-pointer register and re-raises; the
top-level harness exits 0 on normal completion and 1 on any unhandled
failure, printing the exception message. -/
theorem c8_failure_surface (b : StartBehavior) (msg : String) (rip : Nat) :
    (b.result = some (msg, rip) →
       run_finish b = ([OutEvent.printFault rip], Except.error msg) ∧
       main_harness b =
         ([OutEvent.printFault rip, OutEvent.printMsg msg], 1)) ∧
    (b.result = none →
       main_harness b = ([OutEvent.printDone], 0)) := by
  constructor
  · intro h
    have hr : run_finish b = ([OutEvent.printFault rip], Except.error msg) := by
      unfold run_finish
      rw [h]
    refine ⟨hr, ?_⟩
    · unfold main_harness
      rw [hr]
      rfl
  · intro h
    have hr : run_finish b = ([OutEvent.printDone], Except.ok ()) := by
      unfold run_finish
      rw [h]
    unfold main_harness
    rw [hr]

theorem c8_witness :
    main_harness { result := some ("Failed to map binary", 0x7ff800012340) } =
      ([OutEvent.printFault 0x7ff800012340,
        OutEvent.printMsg "Failed to map binary"], 1) :=
  ((c8_failure_surface { result := some ("Failed to map binary", 0x7ff800012340) }
    "Failed to map binary" 0x7ff800012340).1 rfl).2

/-! ## Reverse export map (run's export_remap) -/

/-- Option fallback: keep the first operand when present. -/
def optOr {γ : Type} (x y : Option γ) : Option γ :=
  match x with
  | some v => some v
  | none => y

theorem optOr_none {γ : Type} (x : Option γ) : optOr x none = x := by
  cases x <;> rfl

theorem alookup_append {α β : Type} [DecidableEq α] (l1 l2 : List (α × β))
    (k : α) : alookup (l1 ++ l2) k = optOr (alookup l1 k) (alookup l2 k) := by
  induction l1 with
  | nil => rfl
  | cons p rest ih =>
    by_cases hk : k = p.1
    · simp [alookup, hk, optOr]
    · simp [alookup, hk, ih]

theorem alookup_eq_none_keys {α β : Type} [DecidableEq α] (m : List (α × β))
    (k : α) (h : alookup m k = none) : ∀ p ∈ m, p.1 ≠ k := by
  induction m with
  | nil =>
    intro p hp
    cases hp
  | cons q rest ih =>
    intro p hp
    by_cases hk : k = q.1
    · simp [alookup, hk] at h
    · simp only [alookup, if_neg hk] at h
      rcases List.mem_cons.mp hp with hh | hh
      · rw [hh]
        exact fun e => hk e.symm
      · exact ih h p hh

/-- First export name in the forward map's iteration order whose address is
`a`: the name `try_emplace` ends up keeping for key `a`. -/
def firstWith : List (String × Nat) → Nat → Option String
  | [], _ => none
  | e :: rest, a => if e.2 = a then some e.1 else firstWith rest a

/-- `export_remap.try_emplace(address, name)`: insert only if the address is
not yet a key. -/
def try_emplace (m : List (Nat × String)) (a : Nat) (n : String) :
    List (Nat × String) :=
  if (alookup m a).isSome then m else m ++ [(a, n)]

/-- The reverse export map of `run`: fold the forward exports map (iterated
in ascending name order) with `try_emplace` keyed by address. -/
def build_remap (xs : List (String × Nat)) : List (Nat × String) :=
  xs.foldl (fun m e => try_emplace m e.2 e.1) []

theorem try_emplace_keys_nodup (m : List (Nat × String)) (a : Nat) (n : String)
    (h : m.Pairwise (fun p q => p.1 ≠ q.1)) :
    (try_emplace m a n).Pairwise (fun p q => p.1 ≠ q.1) := by
  unfold try_emplace
  by_cases hx : (alookup m a).isSome
  · simpa [hx] using h
  · rw [if_neg hx]
    rw [List.pairwise_append]
    refine ⟨h, by simp, ?_⟩
    intro p hp q hq
    have hnone : alookup m a = none := by
      cases hA : alookup m a
      · rfl
      · rw [hA] at hx
        simp at hx
    have hpa := alookup_eq_none_keys m a hnone p hp
    have hq1 : q = (a, n) := List.mem_singleton.mp hq
    rw [hq1]
    exact hpa

theorem build_remap_keys_nodup_aux (xs : List (String × Nat)) :
    ∀ m0 : List (Nat × String), m0.Pairwise (fun p q => p.1 ≠ q.1) →
    (xs.foldl (fun m e => try_emplace m e.2 e.1) m0).Pairwise
      (fun p q => p.1 ≠ q.1) := by
  induction xs with
  | nil =>
    intro m0 h
    simpa using h
  | cons e rest ih =>
    intro m0 h
    rw [List.foldl_cons]
    exact ih _ (try_emplace_keys_nodup m0 e.2 e.1 h)

theorem alookup_foldl_try (xs : List (String × Nat)) :
    ∀ (m0 : List (Nat × String)) (a : Nat),
    alookup (xs.foldl (fun m e => try_emplace m e.2 e.1) m0) a =
      optOr (alookup m0 a) (firstWith xs a) := by
  induction xs with
  | nil =>
    intro m0 a
    simp only [List.foldl_nil, firstWith, optOr_none]
  | cons e rest ih =>
    intro m0 a
    rw [List.foldl_cons, ih]
    unfold try_emplace
    by_cases hx : (alookup m0 e.2).isSome
    · rw [if_pos hx]
      by_cases ha : e.2 = a
      · subst ha
        obtain ⟨v, hv⟩ := Option.isSome_iff_exists.mp hx
        simp [firstWith, hv, optOr]
      · simp [firstWith, ha]
    · rw [if_neg hx]
      have hnone : alookup m0 e.2 = none := by
        cases hA : alookup m0 e.2
        · rfl
        · rw [hA] at hx
          simp at hx
      rw [alookup_append]
      by_cases ha : e.2 = a
      · subst ha
        rw [hnone]
        simp [alookup, firstWith, optOr]
      · have hone : alookup [(e.2, e.1)] a = none := by
          have : ¬ a = e.2 := fun e2 => ha e2.symm
          simp [alookup, this]
        rw [hone, optOr_none]
        simp [firstWith, ha]

theorem build_remap_lookup (xs : List (String × Nat)) (a : Nat) :
    alookup (build_remap xs) a = firstWith xs a := by
  have h := alookup_foldl_try xs [] a
  simpa [build_remap, alookup, optOr] using h

theorem firstWith_mem (xs : List (String × Nat)) (a : Nat) (n : String)
    (h : firstWith xs a = some n) : (n, a) ∈ xs := by
  induction xs with
  | nil => cases h
  | cons e rest ih =>
    by_cases he : e.2 = a
    · simp only [firstWith, if_pos he] at h
      have hn : e.1 = n := Option.some.inj h
      rw [List.mem_cons]
      left
      rw [← hn, ← he]
    · simp only [firstWith, if_neg he] at h
      exact List.mem_cons_of_mem _ (ih h)

theorem firstWith_isSome_of_mem (xs : List (String × Nat)) (n : String)
    (a : Nat) (h : (n, a) ∈ xs) : (firstWith xs a).isSome := by
  induction xs with
  | nil => cases h
  | cons e rest ih =>
    by_cases he : e.2 = a
    · simp [firstWith, he]
    · rcases List.mem_cons.mp h with hh | hh
      · exact absurd ((congrArg Prod.snd hh).symm) he
      · simp only [firstWith, if_neg he]
        exact ih hh

theorem firstWith_min (xs : List (String × Nat)) (a : Nat) (n : String) :
    xs.Pairwise (fun p q => p.1.data < q.1.data) →
    firstWith xs a = some n →
    ∀ n', (n', a) ∈ xs → n ≤ n' := by
  induction xs with
  | nil =>
    intro _ h
    cases h
  | cons e rest ih =>
    intro hs h n' hn'
    rw [List.pairwise_cons] at hs
    by_cases he : e.2 = a
    · have hn : n = e.1 := by
        simp only [firstWith, if_pos he] at h
        exact (Option.some.inj h).symm
      rcases List.mem_cons.mp hn' with hh | hh
      · have hfst : n' = e.1 := congrArg Prod.fst hh
        exact le_of_eq (hn.trans hfst.symm)
      · have hlt : e.1.data < n'.data := hs.1 (n', a) hh
        rw [hn]
        exact le_of_lt (String.lt_iff_toList_lt.mpr hlt)
    · have h2 : firstWith rest a = some n := by
        simpa [firstWith, he] using h
      rcases List.mem_cons.mp hn' with hh | hh
      · exact absurd ((congrArg Prod.snd hh).symm) he
      · exact ih hs.2 h2 n' hh

/-- Claim C9: the reverse export map is deterministic: each distinct export
address is a key exactly once (exactly one execution hook is installed per
address), and the name attached to it is the lexicographically smallest
export name mapping to that address, because the forward map is iterated in
ascending name order and `try_emplace` keeps the first insertion. -/
theorem c9_remap_deterministic (env : EmuEnv) (img : PEImage)
    (ops : List MemOp) (bin : mapped_binary)
    (h : map_module env img = (ops, Except.ok bin)) :
    (build_remap bin.exports).Pairwise (fun p q => p.1 ≠ q.1) ∧
    (∀ a n, alookup (build_remap bin.exports) a = some n →
       (n, a) ∈ bin.exports ∧ ∀ n', (n', a) ∈ bin.exports → n ≤ n') ∧
    (∀ n a, (n, a) ∈ bin.exports →
       (alookup (build_remap bin.exports) a).isSome) := by
  have hsorted := exports_sorted_of_ok env img ops bin h
  refine ⟨build_remap_keys_nodup_aux bin.exports [] (by simp), ?_, ?_⟩
  · intro a n hl
    rw [build_remap_lookup] at hl
    exact ⟨firstWith_mem _ _ _ hl, firstWith_min _ _ _ hsorted hl⟩
  · intro n a hm
    rw [build_remap_lookup]
    exact firstWith_isSome_of_mem _ _ _ hm

theorem c9_witness :
    ("bar", 0x180000500) ∈ bin_alias.exports ∧
      ∀ n', (n', 0x180000500) ∈ bin_alias.exports → "bar" ≤ n' := by
  have h : map_module env_ok img_alias =
      ([MemOp.alloc 0x180000000 0x2000 perm_read,
        MemOp.write 0x180000000 0 0x400], Except.ok bin_alias) := rfl
  exact (c9_remap_deterministic env_ok img_alias _ bin_alias h).2.1
    0x180000500 "bar" rfl
